import Mathlib

/-!
Shallow embedding of the bigiron-virt provisioning core (Rust) in Lean 4,
with theorems settling the specification claims about it.

Modules embedded (from the repository sources):
  * `src/mac.rs`            — MAC generation, IPv6 SLAAC derivation, Display/FromStr
  * `src/api/models.rs`     — `to_size` size-string parsing
  * `src/network_config.rs` — network-configuration document synthesis
  * `src/image/repo.rs`     — content-addressed image repository (`add_image`)
  * `src/vmstore.rs`        — instance store (`remove_instance`)
  * `src/libvirt.rs`        — domain-descriptor builder fragments and `destroy`
  * `src/hostmanager.rs`    — orchestrator (`create_machine` NIC and storage
                              loops, `destroy_machine`)

Strings are modelled as Lean `String`/`List Char`; all inputs relevant to the
claims are ASCII, for which Rust byte-slice indices coincide with character
indices. External crates used by the code are embedded at their observable
behaviour: `hex` (encode/decode), `rand` ranges (as hypotheses on drawn
values), `sha2` (as an abstract digest function parameter), `serde_yaml`
(as an explicit renderer of the fixed document shape). Filesystem state is
modelled as explicit association lists / lists passed through the functions.
-/

namespace BigironVirt

/-! ## hex crate: lowercase encoding, case-insensitive decoding -/

/-- Lowercase hexadecimal digit for a value `< 16` (as emitted by `hex::encode`). -/
def hexDigitChar (n : Nat) : Char :=
  if n < 10 then Char.ofNat (48 + n) else Char.ofNat (97 + (n - 10))

/-- `hex::encode` of a single byte: two lowercase hex digits. -/
def hexEncodeByte (b : Nat) : List Char :=
  [hexDigitChar (b / 16), hexDigitChar (b % 16)]

/-- `hex::encode` of a byte sequence. -/
def hexEncode (bs : List Nat) : List Char :=
  (bs.map hexEncodeByte).flatten

/-- Value of one hex digit character, accepting both cases (as `hex::decode` does). -/
def hexDigitVal (c : Char) : Option Nat :=
  if 48 ≤ c.toNat ∧ c.toNat ≤ 57 then some (c.toNat - 48)
  else if 97 ≤ c.toNat ∧ c.toNat ≤ 102 then some (c.toNat - 87)
  else if 65 ≤ c.toNat ∧ c.toNat ≤ 70 then some (c.toNat - 55)
  else none

/-- `hex::decode`: consumes pairs of hex digits; fails on an odd-length input
or any non-hex-digit character. -/
def hexDecode : List Char → Option (List Nat)
  | [] => some []
  | [_] => none
  | c₁ :: c₂ :: rest => do
      let h ← hexDigitVal c₁
      let l ← hexDigitVal c₂
      let tail ← hexDecode rest
      pure ((h * 16 + l) :: tail)

/-! ## Rust `str::split` / join over character lists -/

/-- Rust `str::split(sep)` on a character list: splits at every occurrence of
`sep`; the empty input yields one empty segment, like `"".split(":")`. -/
def splitSep (sep : Char) : List Char → List (List Char)
  | [] => [[]]
  | c :: rest =>
      let r := splitSep sep rest
      if c = sep then [] :: r
      else (c :: r.headI) :: r.tail

/-- `Vec::join(sep)` on character-list segments. -/
def joinSep (sep : Char) : List (List Char) → List Char
  | [] => []
  | [x] => x
  | x :: rest => x ++ sep :: joinSep sep rest

/-! ## `src/mac.rs` -/

namespace Mac

/-- `Mac::gen` (src/mac.rs): the three fixed prefix octets followed by the
three drawn octets.  The draws come from `rng.gen_range(0x00..0x7f)`,
`gen_range(0x00..0xff)`, `gen_range(0x00..0xff)` — half-open ranges — and are
passed in here as the parameters `r3 r4 r5`, with the range bounds appearing
as hypotheses in the theorems about this function. -/
def gen (r3 r4 r5 : Nat) : List Nat :=
  [0x00, 0x16, 0x3e, r3, r4, r5]

/-- `Mac::to_ipv6_slaac_addr` (src/mac.rs): flip bit 1 of the first octet
(`octets[0] | 0b0000_00010`), form the four EUI-64 byte pairs, hex-encode each,
join with ':', strip all leading '0' characters (`trim_start_matches("0")`)
and prepend `"fe80::"`. -/
def toIpv6SlaacAddr (octets : List Nat) : String :=
  let flipped := octets.getD 0 0 ||| 0b000000010
  let addr := [(flipped, octets.getD 1 0),
               (octets.getD 2 0, 0xff),
               (0xfe, octets.getD 3 0),
               (octets.getD 4 0, octets.getD 5 0)]
  let s := joinSep ':' (addr.map fun p => hexEncode [p.1, p.2])
  String.mk ("fe80::".data ++ s.dropWhile (· = '0'))

/-- `Display for Mac` (src/mac.rs): each octet hex-encoded, joined with ':'. -/
def toString (octets : List Nat) : List Char :=
  joinSep ':' (octets.map fun o => hexEncode [o])

/-- The byte sequence produced inside `FromStr for Mac` (src/mac.rs): split on
':', `hex::decode` each segment, and flatten, silently discarding segments
that fail to decode (the `Result`-flattening of the Rust iterator chain). -/
def decodedBytes (s : List Char) : List Nat :=
  ((splitSep ':' s).filterMap hexDecode).flatten

/-- `FromStr for Mac` (src/mac.rs): the decoded bytes must number exactly 6
(`try_into` into `[u8; 6]`), otherwise `MacParseError`. -/
def fromStr (s : List Char) : Option (List Nat) :=
  let v := decodedBytes s
  if v.length = 6 then some v else none

end Mac

/-! ## `src/api/models.rs` — `to_size` -/

namespace Models

/-- Outcome of running `to_size`: a Rust panic (index out of range /
subtraction overflow), a typed parse error (`Err`), or a value (`Ok`). -/
inductive SizeResult where
  | panic
  | err
  | ok (n : Nat)
deriving DecidableEq, Repr

/-- `u64::from_str`: an optional leading '+', then one or more ASCII digits;
fails on anything else or on overflow past `2^64 - 1`. -/
def parseU64 (cs : List Char) : Option Nat :=
  let ds := match cs with
    | '+' :: rest => rest
    | _ => cs
  if ds ≠ [] ∧ ds.all (fun c => c.isDigit) then
    let v := ds.foldl (fun a c => a * 10 + (c.toNat - 48)) 0
    if v < 2 ^ 64 then some v else none
  else none

/-- `to_size` (src/api/models.rs).  The Rust function starts with the byte
slices `&s[s.len()-1..]` and `&s[s.len()-2..s.len()-1]`; for inputs shorter
than 2 bytes the index arithmetic underflows / the slice range is out of
bounds, which panics — modelled by the `panic` outcome.  For longer inputs:
if the last character is 'i' the coefficient is 1024 and the unit character is
the second-to-last, else the coefficient is 1000 and the unit is the last
character; unrecognized units yield exponent 0; the remaining prefix is parsed
as `u64`.  The multiplication is reduced modulo `2^64` (release-mode wrapping;
no claim exercises magnitudes near the overflow boundary). -/
def to_size (s : List Char) : SizeResult :=
  if s.length < 2 then SizeResult.panic
  else
    let last := s.drop (s.length - 1)
    let nlast := (s.drop (s.length - 2)).take 1
    let co : Nat := if last = ['i'] then 1024 else 1000
    let unit := if last = ['i'] then nlast else last
    let num := if last = ['i'] then s.take (s.length - 2) else s.take (s.length - 1)
    let exp : Nat :=
      match unit with
      | ['T'] => 3 | ['t'] => 3
      | ['G'] => 3 | ['g'] => 3
      | ['M'] => 2 | ['m'] => 2
      | ['K'] => 1 | ['k'] => 1
      | _ => 0
    match parseU64 num with
    | none => SizeResult.err
    | some scalar => SizeResult.ok ((scalar * co ^ exp) % 2 ^ 64)

/-- The magnitude substring `num` that `to_size` hands to `u64::from_str`:
everything before the final character, or before the final two characters
when the string ends in 'i'. -/
def numPart (s : List Char) : List Char :=
  if s.drop (s.length - 1) = ['i'] then s.take (s.length - 2) else s.take (s.length - 1)

end Models

/-! ## `src/network_config.rs` -/

namespace NetworkConfig

/-- `api::models::AddressKind` (src/api/models.rs): SLAAC, or static IPv4
with address, gateway and nameserver list. -/
inductive AddressKind where
  | IPv6SLAAC
  | IPv4Static (addr : String) (gateway : String) (nameservers : List String)
deriving DecidableEq, Repr

/-- `api::models::Nic` (src/api/models.rs). -/
structure Nic where
  kind : String
  parent : String
  address : AddressKind
  macaddress : String
deriving DecidableEq, Repr

/-- `network_config::MatchBlock`. -/
structure MatchBlock where
  macaddress : Option String
  name : Option String
  driver : Option String
deriving DecidableEq, Repr

/-- `network_config::Nameservers`. -/
structure Nameservers where
  search : Option (List String)
  addresses : List String
deriving DecidableEq, Repr

/-- `network_config::Route` — `dest` embeds the Rust field `to` (a reserved
word in Lean). -/
structure Route where
  dest : String
  via : String
  metric : Nat
deriving DecidableEq, Repr

/-- `network_config::Ethernet` — `matchBlock` embeds the Rust field
`r#match`; the `Option` fields carry `skip_serializing_if = Option::is_none`
in the source, i.e. an absent value is omitted from the document. -/
structure Ethernet where
  matchBlock : MatchBlock
  dhcp4 : Option Bool
  dhcp6 : Option Bool
  addresses : Option (List String)
  gateway4 : Option String
  gateway6 : Option String
  nameservers : Option Nameservers
  routes : Option (List Route)
  wakeonlan : Option Bool
  set_name : Option String
deriving DecidableEq, Repr

/-- `Ethernet::new_with_mac` (src/network_config.rs). -/
def Ethernet.new_with_mac (mac : String) : Ethernet :=
  { matchBlock := { macaddress := some mac, name := none, driver := none }
    dhcp4 := none, dhcp6 := none, addresses := none, gateway4 := none
    gateway6 := none, nameservers := none, routes := none, wakeonlan := none
    set_name := none }

/-- `TryFrom<&api::models::Nic> for Ethernet` (src/network_config.rs).  The
Rust implementation has no failure path (it always returns `Ok`), so the
embedding is total. -/
def Ethernet.tryFrom (nic : Nic) : Ethernet :=
  let s := Ethernet.new_with_mac nic.macaddress
  match nic.address with
  | AddressKind.IPv6SLAAC => { s with dhcp6 := some true }
  | AddressKind.IPv4Static addr gateway nameservers =>
      { s with
        addresses := some [addr]
        gateway4 := some gateway
        nameservers :=
          if nameservers ≠ [] then
            some { search := none, addresses := nameservers }
          else none }

/-- The `ethers` map built by the `for (i, nic) in nics.iter().enumerate()`
loop of `build_net_config`, as the list of inserted key–value pairs starting
at index `i`.  All keys `"id<i>"` are distinct, so the `HashMap` contents are
exactly these pairs (the map's iteration order during serialization is
unspecified; no claim depends on entry order). -/
def ethersFrom (i : Nat) : List Nic → List (String × Ethernet)
  | [] => []
  | nic :: rest => ("id" ++ toString i, Ethernet.tryFrom nic) :: ethersFrom (i + 1) rest

/-- The ethernet entries of `build_net_config` for a present interface list. -/
def ethernetEntries (nics : List Nic) : List (String × Ethernet) :=
  ethersFrom 0 nics

/-- One rendered line for a present optional scalar field, or nothing. -/
def renderOptField (key : String) (v : Option String) : String :=
  match v with
  | none => ""
  | some s => "      " ++ key ++ ": " ++ s ++ "\n"

/-- Rendering of one ethernet entry in the serialized document (block-style
YAML as `serde_yaml` emits for these structs; absent `Option` fields are
omitted per `skip_serializing_if`). -/
def renderEntry (e : String × Ethernet) : String :=
  e.1 ++ ":\n" ++
  "      match:\n" ++
  (match e.2.matchBlock.macaddress with
   | none => ""
   | some m => "        macaddress: " ++ m ++ "\n") ++
  renderOptField "dhcp4" (e.2.dhcp4.map (fun b => if b then "true" else "false")) ++
  renderOptField "dhcp6" (e.2.dhcp6.map (fun b => if b then "true" else "false")) ++
  (match e.2.addresses with
   | none => ""
   | some addrs => "      addresses: [" ++ String.intercalate ", " addrs ++ "]\n") ++
  renderOptField "gateway4" e.2.gateway4 ++
  renderOptField "gateway6" e.2.gateway6 ++
  (match e.2.nameservers with
   | none => ""
   | some ns => "      nameservers:\n        addresses: [" ++
        String.intercalate ", " ns.addresses ++ "]\n")

/-- Serialization of the `NetworkConfig { network: NetworkConfigV2 { version,
ethernets } }` document (`serde_yaml::to_writer`): always a non-empty
document; an empty map renders as `{}`. -/
def renderNetConfig (version : Nat) (ethers : List (String × Ethernet)) : String :=
  "network:\n  version: " ++ toString version ++ "\n  ethernets:" ++
  (if ethers.isEmpty then " {}\n"
   else "\n" ++ String.join (ethers.map (fun e => "    " ++ renderEntry e)))

/-- `build_net_config` (src/network_config.rs): `None` returns the untouched
empty buffer; `Some(nics)` — including an empty vector — serializes the
document with version marker 2. -/
def build_net_config (nics : Option (List Nic)) : String :=
  match nics with
  | none => ""
  | some ns => renderNetConfig 2 (ethernetEntries ns)

end NetworkConfig

/-! ## Association-list views of directories on disk -/

/-- Lookup of a key in an association list (a directory entry by name). -/
def lookupKey {α : Type} : List (String × α) → String → Option α
  | [], _ => none
  | (n, c) :: rest, k => if n = k then some c else lookupKey rest k

/-- Removal of a key from an association list (deleting a directory entry). -/
def removeKey {α : Type} : List (String × α) → String → List (String × α)
  | [], _ => []
  | (n, c) :: rest, k =>
      if n = k then removeKey rest k else (n, c) :: removeKey rest k

/-- Creating/overwriting a file with the given contents
(`OpenOptions::new().write(true).create(true)` followed by a full copy). -/
def putKey {α : Type} (fs : List (String × α)) (k : String) (c : α) : List (String × α) :=
  (k, c) :: removeKey fs k

/-! ## `src/image/repo.rs` -/

namespace Repo

/-- The repository directory: file name ↦ file contents (byte list). -/
abbrev FS := List (String × List Nat)

/-- The on-disk name for a digest: `format!("{}.qcow2", hash)`. -/
def qcow2Name (hash : String) : String := hash ++ ".qcow2"

/-- `Directory::add_image` (src/image/repo.rs).  `sha` is the hex-encoded
SHA-256 digest function of the `sha2` crate (abstract here: the code streams
the source through the hasher, so the digest is a function of the full
contents).  `scheme` is `url.scheme()`; `src` is the contents of the source
file (`none` when `File::open` fails).  Returns the Rust result paired with
the repository directory state after the call:
  * non-`file` scheme → error, directory untouched;
  * destination already present → `Ok(hash)` without re-reading the source;
  * otherwise the source is streamed into `<hash>.qcow2` while hashing; a
    digest mismatch removes the just-written file and errors. -/
def add_image (sha : List Nat → String) (fs : FS) (scheme : String)
    (src : Option (List Nat)) (hash : String) : Except String String × FS :=
  if scheme ≠ "file" then
    (Except.error ("Url scheme not supported: " ++ scheme), fs)
  else
    let toName := qcow2Name hash
    if (lookupKey fs toName).isSome then
      (Except.ok hash, fs)
    else
      match src with
      | none => (Except.error "No such file or directory", fs)
      | some contents =>
          let fs1 := putKey fs toName contents
          let hx := sha contents
          if hx ≠ hash then
            (Except.error "Given hash value does not match image data hash",
             removeKey fs1 toName)
          else
            (Except.ok hash, fs1)

/-- The content-addressing invariant of the repository: every file stored
under the digest-derived name `<D>.qcow2` has `sha(contents) = D`. -/
def RepoInv (sha : List Nat → String) (fs : FS) : Prop :=
  ∀ d c, lookupKey fs (qcow2Name d) = some c → sha c = d

end Repo

/-! ## `src/libvirt.rs`, `src/vmstore.rs`, `src/hostmanager.rs` -/

namespace Libvirt

/-- `libvirt::destroy` (src/libvirt.rs): look the domain up by name; a
"Domain not found" error from the lookup is returned as `Ok(())`; an existing
domain is destroyed.  State: the list of defined domain names. -/
def destroy (domains : List String) (name : String) : Except String (List String) :=
  if name ∈ domains then Except.ok (domains.erase name)
  else Except.ok domains

end Libvirt

namespace VMStore

/-- The instance store directory: instance name ↦ names of the files directly
inside that instance's directory. -/
abbrev Store := List (String × List String)

/-- `VMStore::remove_instance` (src/vmstore.rs): `read_dir` on the instance
directory — which fails with a filesystem error when the directory does not
exist — then removes every file inside it and the directory itself. -/
def remove_instance (store : Store) (id : String) : Except String Store :=
  match lookupKey store id with
  | none => Except.error "No such file or directory"
  | some _ => Except.ok (removeKey store id)

end VMStore

namespace HostManager

/-- `api::models::StorageKind` (src/api/models.rs): file- or block-backed,
each carrying a host path. -/
inductive StorageKind where
  | file (path : String)
  | block (path : String)
deriving DecidableEq, Repr

/-- A self-contained device fragment accumulated by `DomainBuilder`
(src/libvirt.rs); the XML text each `add_*` call appends is abstracted to a
tagged fragment carrying the same data. -/
inductive DeviceFragment where
  | fileStorage (path : String) (target : String)
  | blockStorage (path : String) (target : String)
  | bridged (parent : String) (mac : String)
  | macvtap (parent : String) (mac : String)
  | cdrom (path : String)
deriving DecidableEq, Repr

/-- The target device name of a storage fragment, when it has one. -/
def DeviceFragment.targetDev : DeviceFragment → Option String
  | DeviceFragment.fileStorage _ t => some t
  | DeviceFragment.blockStorage _ t => some t
  | _ => none

/-- The target name built for attachment index `i` in `create_machine`
(src/hostmanager.rs): the bytes `[118, 100, 98 + i]`, i.e. `"vd"` followed by
the drive letter starting at `'b'`. -/
def target_name (i : Nat) : String :=
  String.mk [Char.ofNat 118, Char.ofNat 100, Char.ofNat (98 + i)]

/-- The storage fragment attached for attachment index `i`. -/
def storageFragment (i : Nat) : StorageKind → DeviceFragment
  | StorageKind.file p => DeviceFragment.fileStorage p (target_name i)
  | StorageKind.block p => DeviceFragment.blockStorage p (target_name i)

/-- The `for (i, store) in storages.iter().enumerate()` loop of
`create_machine` (src/hostmanager.rs), started at index `i`.  Returns the
fragments attached to the domain-descriptor builder in order, and whether the
loop panicked (`panic!("not enough drive letters for storage drives")`, taken
when `i > 24` — before attaching the fragment for that index). -/
def storageLoop : List StorageKind → Nat → List DeviceFragment × Bool
  | [], _ => ([], false)
  | st :: rest, i =>
      if 24 < i then ([], true)
      else
        let r := storageLoop rest (i + 1)
        (storageFragment i st :: r.1, r.2)

/-- The storage-attachment phase of `create_machine`: the loop from index 0. -/
def attach_storages (storages : List StorageKind) : List DeviceFragment × Bool :=
  storageLoop storages 0

open NetworkConfig in
/-- `nic.macaddress = Mac::gen().to_string()`: the interface updated in place
with the freshly generated MAC (`mac` is the generated value). -/
def setMac (nic : Nic) (mac : String) : Nic :=
  { nic with macaddress := mac }

open NetworkConfig in
/-- The device fragment the NIC loop of `create_machine` (src/hostmanager.rs)
attaches for one interface, after its MAC has been assigned: a bridge or
macvtap interface fragment, or — for any other kind string — none (the
`&_ => {}` arm: no fragment and no error). -/
def nicFragment (nic : Nic) : Option DeviceFragment :=
  if nic.kind = "Bridge" then some (DeviceFragment.bridged nic.parent nic.macaddress)
  else if nic.kind = "Macvtap" then some (DeviceFragment.macvtap nic.parent nic.macaddress)
  else none

open NetworkConfig in
/-- The `for nic in nics.iter_mut()` loop of `create_machine`
(src/hostmanager.rs).  `macs` supplies the successive values drawn by
`Mac::gen().to_string()`, one per interface.  Returns the mutated interface
list (each with its MAC assigned), the interface device fragments attached to
the builder in order, and `bridged_nic_info` (the MAC of the last bridge
interface, if any). -/
def nicLoop : List Nic → List String → List Nic × List DeviceFragment × Option String
  | [], _ => ([], [], none)
  | _ :: _, [] => ([], [], none)
  | nic :: rest, m :: ms =>
      let nic1 := setMac nic m
      let r := nicLoop rest ms
      let frag := nicFragment nic1
      let myInfo := if nic1.kind = "Bridge" then some m else none
      (nic1 :: r.1, frag.toList ++ r.2.1, r.2.2 <|> myInfo)

/-- World state touched by `destroy_machine`: the hypervisor's defined
domains and the instance-store directory. -/
structure World where
  domains : List String
  instances : VMStore.Store
deriving DecidableEq, Repr

/-- `HostManager::destroy_machine` (src/hostmanager.rs): `libvirt::destroy`
then `VMStore::remove_instance`, each failure propagating with `?`. -/
def destroy_machine (w : World) (id : String) : Except String World :=
  match Libvirt.destroy w.domains id with
  | Except.error e => Except.error e
  | Except.ok ds =>
      match VMStore.remove_instance w.instances id with
      | Except.error e => Except.error e
      | Except.ok is => Except.ok { domains := ds, instances := is }

end HostManager

/-! ## Default values used to state indexed properties via `List.getD` -/

/-- Default interface for `List.getD` statements. -/
def dfltNic : NetworkConfig.Nic :=
  { kind := "", parent := "", address := NetworkConfig.AddressKind.IPv6SLAAC, macaddress := "" }

/-- Default ethernet entry for `List.getD` statements. -/
def dfltEntry : String × NetworkConfig.Ethernet :=
  ("", NetworkConfig.Ethernet.new_with_mac "")

/-- Default device fragment for `List.getD` statements. -/
def dfltFrag : HostManager.DeviceFragment := HostManager.DeviceFragment.cdrom ""

/-- Default storage attachment for `List.getD` statements. -/
def dfltStorage : HostManager.StorageKind := HostManager.StorageKind.file ""

/-! ## Helper lemmas -/

lemma lookupKey_putKey_self {α : Type} (fs : List (String × α)) (k : String) (c : α) :
    lookupKey (putKey fs k c) k = some c := by
  simp [putKey, lookupKey]

lemma lookupKey_removeKey_self {α : Type} (fs : List (String × α)) (k : String) :
    lookupKey (removeKey fs k) k = none := by
  induction fs with
  | nil => simp [removeKey, lookupKey]
  | cons hd tl ih =>
      obtain ⟨n, c⟩ := hd
      by_cases h : n = k <;> simp [removeKey, lookupKey, h, ih]

lemma lookupKey_removeKey_ne {α : Type} (fs : List (String × α)) (k j : String)
    (h : j ≠ k) : lookupKey (removeKey fs k) j = lookupKey fs j := by
  induction fs with
  | nil => simp [removeKey]
  | cons hd tl ih =>
      obtain ⟨n, c⟩ := hd
      by_cases hn : n = k
      · subst hn
        simp [removeKey, lookupKey, Ne.symm h, ih]
      · by_cases hj : n = j
        · subst hj
          simp [removeKey, lookupKey, hn]
        · simp [removeKey, lookupKey, hn, hj, ih]

lemma lookupKey_putKey_ne {α : Type} (fs : List (String × α)) (k j : String) (c : α)
    (h : j ≠ k) : lookupKey (putKey fs k c) j = lookupKey fs j := by
  simp [putKey, lookupKey, Ne.symm h, lookupKey_removeKey_ne fs k j h]

lemma qcow2Name_inj {d h : String} (he : Repo.qcow2Name d = Repo.qcow2Name h) :
    d = h := by
  have hd : d.data ++ ".qcow2".data = h.data ++ ".qcow2".data := by
    have := congrArg String.data he
    simpa [Repo.qcow2Name] using this
  have hdata : d.data = h.data := List.append_cancel_right hd
  exact String.ext hdata

/-- Splitting an all-separator-free segment returns the one segment. -/
lemma splitSep_no_sep (sep : Char) (x : List Char) (hx : sep ∉ x) :
    splitSep sep x = [x] := by
  induction x with
  | nil => simp [splitSep]
  | cons c rest ih =>
      have hc : c ≠ sep := by
        intro h; exact hx (h ▸ List.mem_cons_self c rest)
      have hrest : sep ∉ rest := fun h => hx (List.mem_cons_of_mem c h)
      simp [splitSep, hc, ih hrest, List.headI, List.tail]

/-- Splitting past a separator-free prefix peels one segment. -/
lemma splitSep_append (sep : Char) (x t : List Char) (hx : sep ∉ x) :
    splitSep sep (x ++ sep :: t) = x :: splitSep sep t := by
  induction x with
  | nil => simp [splitSep]
  | cons c rest ih =>
      have hc : c ≠ sep := by
        intro h; exact hx (h ▸ List.mem_cons_self c rest)
      have hrest : sep ∉ rest := fun h => hx (List.mem_cons_of_mem c h)
      simp [splitSep, hc, ih hrest, List.headI, List.tail]

/-- `split` is a left inverse of `join` for nonempty, separator-free segment
lists. -/
lemma splitSep_joinSep (sep : Char) :
    ∀ parts : List (List Char), parts ≠ [] → (∀ p ∈ parts, sep ∉ p) →
      splitSep sep (joinSep sep parts) = parts := by
  intro parts
  induction parts with
  | nil => intro h; exact absurd rfl h
  | cons x rest ih =>
      intro _ hfree
      cases rest with
      | nil =>
          simpa [joinSep] using splitSep_no_sep sep x (hfree x (List.mem_cons_self x []))
      | cons y rest2 =>
          have hx : sep ∉ x := hfree x (List.mem_cons_self x (y :: rest2))
          have hrest : ∀ p ∈ y :: rest2, sep ∉ p := fun p hp =>
            hfree p (List.mem_cons_of_mem x hp)
          calc splitSep sep (joinSep sep (x :: y :: rest2))
              = splitSep sep (x ++ sep :: joinSep sep (y :: rest2)) := by
                simp [joinSep]
            _ = x :: splitSep sep (joinSep sep (y :: rest2)) := splitSep_append sep _ _ hx
            _ = x :: (y :: rest2) := by rw [ih (by simp) hrest]

set_option maxRecDepth 8192 in
lemma hexDecode_hexEncodeByte : ∀ b < 256, hexDecode (hexEncodeByte b) = some [b] := by
  decide

set_option maxRecDepth 8192 in
lemma colon_not_mem_hexEncodeByte : ∀ b < 256, (':' : Char) ∉ hexEncodeByte b := by
  decide

/-- Decoding the concatenated per-octet encodings recovers the octets. -/
lemma decode_encoded_octets :
    ∀ octs : List Nat, (∀ b ∈ octs, b < 256) →
      (((octs.map hexEncodeByte).filterMap hexDecode)).flatten = octs := by
  intro octs
  induction octs with
  | nil => intro _; simp
  | cons b rest ih =>
      intro hb
      have hb1 : b < 256 := hb b (List.mem_cons_self b rest)
      have hrest : ∀ x ∈ rest, x < 256 := fun x hx => hb x (List.mem_cons_of_mem b hx)
      simp only [List.map_cons, List.filterMap_cons, hexDecode_hexEncodeByte b hb1,
        List.flatten_cons, List.singleton_append]
      rw [ih hrest]

/-- The storage loop panics exactly when the attachments starting at index
`i ≤ 25` overrun index 25. -/
lemma storageLoop_snd (l : List HostManager.StorageKind) :
    ∀ i, i ≤ 25 → (HostManager.storageLoop l i).2 = decide (25 - i < l.length) := by
  induction l with
  | nil =>
      intro i _
      simp [HostManager.storageLoop]
  | cons st rest ih =>
      intro i hi
      by_cases h : 24 < i
      · have : i = 25 := by omega
        subst this
        simp [HostManager.storageLoop]
      · have h1 : i + 1 ≤ 25 := by omega
        simp only [HostManager.storageLoop, if_neg h, ih (i + 1) h1, List.length_cons,
          decide_eq_decide]
        omega

/-- The storage loop attaches `min (remaining) (letters left)` fragments. -/
lemma storageLoop_length (l : List HostManager.StorageKind) :
    ∀ i, i ≤ 25 → (HostManager.storageLoop l i).1.length = min l.length (25 - i) := by
  induction l with
  | nil =>
      intro i _
      simp [HostManager.storageLoop]
  | cons st rest ih =>
      intro i hi
      by_cases h : 24 < i
      · have : i = 25 := by omega
        subst this
        simp [HostManager.storageLoop]
      · have h1 : i + 1 ≤ 25 := by omega
        simp only [HostManager.storageLoop, if_neg h, List.length_cons, ih (i + 1) h1]
        omega

/-- Fragments attached by the storage loop, in order: attachment `j` of the
remaining list gets the fragment for index `i + j`. -/
lemma storageLoop_getD (l : List HostManager.StorageKind) :
    ∀ i j, i ≤ 25 → j < (HostManager.storageLoop l i).1.length →
      (HostManager.storageLoop l i).1.getD j dfltFrag =
        HostManager.storageFragment (i + j) (l.getD j dfltStorage) := by
  induction l with
  | nil =>
      intro i j _ hj
      simp [HostManager.storageLoop] at hj
  | cons st rest ih =>
      intro i j hi hj
      by_cases h : 24 < i
      · simp [HostManager.storageLoop, if_pos h] at hj
      · simp only [HostManager.storageLoop, if_neg h] at hj ⊢
        cases j with
        | zero => simp
        | succ j2 =>
            simp only [List.getD_cons_succ]
            have harith : i + (j2 + 1) = (i + 1) + j2 := by omega
            rw [harith]
            exact ih (i + 1) j2 (by omega) (by simpa using hj)

/-- Indexing the ethernet-entries accumulator. -/
lemma ethersFrom_getD (nics : List NetworkConfig.Nic) :
    ∀ k j, j < nics.length →
      (NetworkConfig.ethersFrom k nics).getD j dfltEntry =
        ("id" ++ toString (k + j),
         NetworkConfig.Ethernet.tryFrom (nics.getD j dfltNic)) := by
  induction nics with
  | nil =>
      intro k j hj
      simp at hj
  | cons nic rest ih =>
      intro k j hj
      cases j with
      | zero => simp [NetworkConfig.ethersFrom]
      | succ j2 =>
          simp only [NetworkConfig.ethersFrom, List.getD_cons_succ]
          have harith : k + (j2 + 1) = (k + 1) + j2 := by omega
          rw [harith]
          exact ih (k + 1) j2 (by simpa using hj)

/-- The mutated interface list returned by the NIC loop is the pairwise
MAC assignment. -/
lemma nicLoop_fst (nics : List NetworkConfig.Nic) :
    ∀ macs, (HostManager.nicLoop nics macs).1 =
      List.zipWith HostManager.setMac nics macs := by
  induction nics with
  | nil => intro macs; cases macs <;> simp [HostManager.nicLoop]
  | cons nic rest ih =>
      intro macs
      cases macs with
      | nil => simp [HostManager.nicLoop]
      | cons m ms => simp [HostManager.nicLoop, ih ms]

/-- The interface fragments attached by the NIC loop: one optional fragment
per (interface, generated MAC) pair, in order. -/
lemma nicLoop_frags (nics : List NetworkConfig.Nic) :
    ∀ macs, (HostManager.nicLoop nics macs).2.1 =
      List.filterMap (fun p => HostManager.nicFragment (HostManager.setMac p.1 p.2))
        (nics.zip macs) := by
  induction nics with
  | nil => intro macs; cases macs <;> simp [HostManager.nicLoop]
  | cons nic rest ih =>
      intro macs
      cases macs with
      | nil => simp [HostManager.nicLoop]
      | cons m ms =>
          simp only [HostManager.nicLoop, List.zip_cons_cons, List.filterMap_cons, ih ms]
          cases HostManager.nicFragment (HostManager.setMac nic m) <;> simp

/-- Indexing `zipWith setMac`. -/
lemma zipWith_setMac_getD (nics : List NetworkConfig.Nic) :
    ∀ macs i, macs.length = nics.length → i < nics.length →
      (List.zipWith HostManager.setMac nics macs).getD i dfltNic =
        HostManager.setMac (nics.getD i dfltNic) (macs.getD i "") := by
  induction nics with
  | nil =>
      intro macs i _ hi
      simp at hi
  | cons nic rest ih =>
      intro macs i hlen hi
      cases macs with
      | nil => simp at hlen
      | cons m ms =>
          cases i with
          | zero => simp
          | succ i2 =>
              simp only [List.zipWith_cons_cons, List.getD_cons_succ]
              exact ih ms i2 (by simpa using hlen) (by simpa using hi)

/-! ## Claim theorems -/

/-- C7: IPv6 SLAAC derivation is a deterministic pure function of the MAC
(`Mac.toIpv6SlaacAddr` is a function) implementing modified EUI-64 with
whole-suffix leading-zero stripping; for MAC `00:16:3e:23:59:0f` it yields
`fe80::216:3eff:fe23:590f` and for `00:16:3e:5f:5d:47` it yields
`fe80::216:3eff:fe5f:5d47`. -/
theorem c7_ipv6_slaac_examples :
    Mac.toIpv6SlaacAddr [0x00, 0x16, 0x3e, 0x23, 0x59, 0x0f] =
      "fe80::216:3eff:fe23:590f" ∧
    Mac.toIpv6SlaacAddr [0x00, 0x16, 0x3e, 0x5f, 0x5d, 0x47] =
      "fe80::216:3eff:fe5f:5d47" := by
  constructor <;> rfl

/-- C9: for every input string shorter than 2 characters (bytes, for the
ASCII inputs modelled here), `to_size` panics on its initial byte-slice
indexing instead of returning a typed parse error. -/
theorem c9_to_size_short_input_panics :
    ∀ s : List Char, s.length < 2 → Models.to_size s = Models.SizeResult.panic := by
  intro s h
  simp only [Models.to_size]
  rw [if_pos h]

/-- Witness for C9 at the empty string. -/
theorem c9_to_size_short_input_panics_witness :
    Models.to_size [] = Models.SizeResult.panic :=
  c9_to_size_short_input_panics [] (by decide)

/-- C5 counterexample: the claim says every input with a unit suffix outside
{k,K,m,M,g,G,t,T} (optionally with 'i') fails to parse, but `to_size "100X"`
succeeds, returning 100: the unrecognized suffix merely selects exponent 0
and the final character is dropped from the magnitude. -/
theorem c5_to_size_counterexample :
    Models.to_size "100X".data = Models.SizeResult.ok 100 := by decide

/-- C5 (amended): `to_size` is a pure function with
`to_size "100M" = 100_000_000` and `to_size "12Gi" = 12·1024³`; an
unrecognized unit suffix does not fail — the last character (or last two for
an 'i' form) is dropped and the rest is parsed with scale factor 1, as
witnessed by `to_size "100X" = 100` — and `to_size` fails to parse exactly
those inputs of length ≥ 2 whose magnitude part is non-numeric. -/
theorem c5_to_size_values :
    Models.to_size "100M".data = Models.SizeResult.ok 100000000 ∧
    Models.to_size "12Gi".data = Models.SizeResult.ok (12 * 1024 ^ 3) ∧
    Models.to_size "100X".data = Models.SizeResult.ok 100 ∧
    (∀ s : List Char, 2 ≤ s.length →
      Models.parseU64 (Models.numPart s) = none →
      Models.to_size s = Models.SizeResult.err) := by
  refine ⟨by decide, by decide, by decide, ?_⟩
  intro s hlen hnum
  simp only [Models.numPart] at hnum
  simp only [Models.to_size]
  rw [if_neg (by omega)]
  split at hnum
  · simp_all
  · simp_all

/-- Witness for C5's universally quantified part at `"ab"` (non-numeric
magnitude). -/
theorem c5_to_size_values_witness :
    Models.to_size "ab".data = Models.SizeResult.err :=
  c5_to_size_values.2.2.2 "ab".data (by decide) (by decide)

/-- C6 counterexample: the claim constrains the high bit of the
second-to-last octet (`octets[4]`), but that octet is drawn from
`0x00..0xff` and can be `0x80`, whose bit 7 is set; all three draws shown
are inside their `gen_range` bounds. -/
theorem c6_gen_mac_counterexample :
    (0x00 < 0x7f ∧ 0x80 < 0xff ∧ 0x00 < 0xff) ∧
    Nat.testBit ((Mac.gen 0x00 0x80 0x00).getD 4 0) 7 = true := by decide

/-- C6 (amended): every generated MAC has the fixed prefix `00:16:3e` and
six octets, and the octet whose high bit is constrained clear is the fourth
(`octets[3]`, drawn from `0x00..0x7f`), not the second-to-last. -/
theorem c6_gen_mac_prefix :
    ∀ r3 r4 r5 : Nat, r3 < 0x7f → r4 < 0xff → r5 < 0xff →
      (Mac.gen r3 r4 r5).take 3 = [0x00, 0x16, 0x3e] ∧
      (Mac.gen r3 r4 r5).length = 6 ∧
      Nat.testBit ((Mac.gen r3 r4 r5).getD 3 0) 7 = false := by
  intro r3 r4 r5 h3 _ _
  refine ⟨rfl, rfl, ?_⟩
  show Nat.testBit r3 7 = false
  have hdiv : r3 / 128 = 0 := Nat.div_eq_of_lt (by omega)
  simp [Nat.testBit, Nat.shiftRight_eq_div_pow, hdiv]

/-- Witness for C6 at concrete in-range draws. -/
theorem c6_gen_mac_prefix_witness :
    (Mac.gen 0x23 0x59 0x0f).take 3 = [0x00, 0x16, 0x3e] ∧
    (Mac.gen 0x23 0x59 0x0f).length = 6 ∧
    Nat.testBit ((Mac.gen 0x23 0x59 0x0f).getD 3 0) 7 = false :=
  c6_gen_mac_prefix 0x23 0x59 0x0f (by decide) (by decide) (by decide)

/-- C1 counterexample: for a machine with 26 storage attachments the loop
does panic (drive-letter exhaustion at index 25), but only after 25 storage
device fragments have already been attached to the domain descriptor
builder — not "before any". -/
theorem c1_storage_attach_counterexample :
    (HostManager.attach_storages
        (List.replicate 26 (HostManager.StorageKind.file "p"))).2 = true ∧
    (HostManager.attach_storages
        (List.replicate 26 (HostManager.StorageKind.file "p"))).1.length = 25 := by
  constructor <;> rfl

/-- C1 (amended): with 26 or more storage attachments `create_machine`
panics deterministically at attachment index 25 — after attaching the first
25 fragments and before attaching a 26th or building the domain; with at
most 25 attachments the loop completes, attaching one fragment per
attachment in declared order with target device letters assigned
sequentially from "b" (`"vd" ++ letter`). -/
theorem c1_storage_attach_boundary :
    ∀ storages : List HostManager.StorageKind,
      (26 ≤ storages.length →
        (HostManager.attach_storages storages).2 = true ∧
        (HostManager.attach_storages storages).1.length = 25) ∧
      (storages.length ≤ 25 →
        (HostManager.attach_storages storages).2 = false ∧
        (HostManager.attach_storages storages).1.length = storages.length) ∧
      (∀ j, j < (HostManager.attach_storages storages).1.length →
        (HostManager.attach_storages storages).1.getD j dfltFrag =
          HostManager.storageFragment j (storages.getD j dfltStorage) ∧
        ((HostManager.attach_storages storages).1.getD j dfltFrag).targetDev =
          some (String.mk ['v', 'd', Char.ofNat (98 + j)])) := by
  intro storages
  refine ⟨?_, ?_, ?_⟩
  · intro h26
    constructor
    · rw [HostManager.attach_storages, storageLoop_snd storages 0 (by omega)]
      simp
      omega
    · rw [HostManager.attach_storages, storageLoop_length storages 0 (by omega)]
      omega
  · intro h25
    constructor
    · rw [HostManager.attach_storages, storageLoop_snd storages 0 (by omega)]
      simp
      omega
    · rw [HostManager.attach_storages, storageLoop_length storages 0 (by omega)]
      omega
  · intro j hj
    rw [HostManager.attach_storages] at hj ⊢
    have hfrag := storageLoop_getD storages 0 j (by omega) hj
    rw [Nat.zero_add] at hfrag
    refine ⟨hfrag, ?_⟩
    rw [hfrag]
    have hv : Char.ofNat 118 = 'v' := by decide
    have hd : Char.ofNat 100 = 'd' := by decide
    cases storages.getD j dfltStorage <;>
      simp [HostManager.storageFragment, HostManager.DeviceFragment.targetDev,
        HostManager.target_name, hv, hd]

/-- Witness for C1 at a 26-attachment list (panic after 25 fragments) and a
1-attachment list (loop completes, fragment 0 present with target "vdb"). -/
theorem c1_storage_attach_boundary_witness :
    ((HostManager.attach_storages (List.replicate 26 dfltStorage)).2 = true ∧
     (HostManager.attach_storages (List.replicate 26 dfltStorage)).1.length = 25) ∧
    ((HostManager.attach_storages [HostManager.StorageKind.file "a"]).2 = false ∧
     (HostManager.attach_storages [HostManager.StorageKind.file "a"]).1.length = 1) ∧
    (HostManager.attach_storages [HostManager.StorageKind.file "a"]).1.getD 0 dfltFrag =
      HostManager.storageFragment 0
        ([HostManager.StorageKind.file "a"].getD 0 dfltStorage) :=
  ⟨(c1_storage_attach_boundary (List.replicate 26 dfltStorage)).1 (by decide),
   (c1_storage_attach_boundary [HostManager.StorageKind.file "a"]).2.1 (by decide),
   ((c1_storage_attach_boundary [HostManager.StorageKind.file "a"]).2.2 0 (by decide)).1⟩

/-- C8: parsing the canonical colon-hex form of any 6-octet MAC yields
exactly that MAC back, and parsing fails for every string that does not
decode to exactly 6 bytes (the decode being `FromStr`'s own split / hex /
flatten pipeline, which silently skips undecodable segments). -/
theorem c8_mac_parse_roundtrip :
    (∀ octs : List Nat, octs.length = 6 → (∀ b ∈ octs, b < 256) →
      Mac.fromStr (Mac.toString octs) = some octs) ∧
    (∀ s : List Char, (Mac.decodedBytes s).length ≠ 6 → Mac.fromStr s = none) := by
  constructor
  · intro octs hlen hb
    have hmap : (octs.map fun o => hexEncode [o]) = octs.map hexEncodeByte := by
      simp [hexEncode]
    have hne : (octs.map hexEncodeByte) ≠ [] := by
      intro h
      rw [List.map_eq_nil_iff] at h
      subst h
      simp at hlen
    have hfree : ∀ p ∈ octs.map hexEncodeByte, (':' : Char) ∉ p := by
      intro p hp
      obtain ⟨b, hbmem, rfl⟩ := List.mem_map.mp hp
      exact colon_not_mem_hexEncodeByte b (hb b hbmem)
    have hsplit := splitSep_joinSep ':' (octs.map hexEncodeByte) hne hfree
    have hdec : Mac.decodedBytes (Mac.toString octs) = octs := by
      simp only [Mac.decodedBytes, Mac.toString, hmap, hsplit]
      exact decode_encoded_octets octs hb
    simp [Mac.fromStr, hdec, hlen]
  · intro s hne
    simp [Mac.fromStr, hne]

/-- Witness for C8: round trip at a concrete MAC and rejection of a
2-byte-decoding string. -/
theorem c8_mac_parse_roundtrip_witness :
    Mac.fromStr (Mac.toString [0x00, 0x16, 0x3e, 0x23, 0x59, 0x0f]) =
      some [0x00, 0x16, 0x3e, 0x23, 0x59, 0x0f] ∧
    Mac.fromStr "00:11".data = none :=
  ⟨c8_mac_parse_roundtrip.1 [0x00, 0x16, 0x3e, 0x23, 0x59, 0x0f] (by decide) (by decide),
   c8_mac_parse_roundtrip.2 "00:11".data (by decide)⟩

/-- C2 counterexample: destroying the never-created instance "ghost" (no
domain, no instance directory) returns an error, not success: after
`libvirt::destroy` returns `Ok`, `remove_instance` fails reading the
nonexistent directory. -/
theorem c2_destroy_counterexample :
    HostManager.destroy_machine { domains := [], instances := [] } "ghost" =
      Except.error "No such file or directory" := by
  simp [HostManager.destroy_machine, Libvirt.destroy, VMStore.remove_instance, lookupKey]

/-- C2 (amended): for an instance name that was never created, the
hypervisor-level destroy treats the unknown domain as a successful no-op,
but `destroy_machine` as a whole fails: `remove_instance`'s `read_dir` on
the nonexistent instance directory errors and the error propagates. -/
theorem c2_destroy_never_created :
    ∀ (w : HostManager.World) (id : String), id ∉ w.domains →
      lookupKey w.instances id = none →
      Libvirt.destroy w.domains id = Except.ok w.domains ∧
      HostManager.destroy_machine w id = Except.error "No such file or directory" := by
  intro w id hdom hinst
  have hl : Libvirt.destroy w.domains id = Except.ok w.domains := by
    simp [Libvirt.destroy, hdom]
  refine ⟨hl, ?_⟩
  simp [HostManager.destroy_machine, hl, VMStore.remove_instance, hinst]

/-- Witness for C2 at a world holding an unrelated domain and instance. -/
theorem c2_destroy_never_created_witness :
    HostManager.destroy_machine
        { domains := ["other"], instances := [("other", ["instance.qcow2"])] }
        "ghost" =
      Except.error "No such file or directory" :=
  (c2_destroy_never_created
    { domains := ["other"], instances := [("other", ["instance.qcow2"])] }
    "ghost" (by decide) (by decide)).2

/-- C3: the image repository's content-addressing invariant — every file
stored under digest `D` has `sha(contents) = D` — is preserved by
`add_image`; and when the streamed data's digest differs from the declared
digest (for a fresh `file`-scheme import), `add_image` removes the
just-written destination and errors, leaving no file under that digest. -/
theorem c3_repo_digest_invariant :
    ∀ (sha : List Nat → String) (fs : Repo.FS) (scheme : String)
      (src : Option (List Nat)) (hash : String),
      Repo.RepoInv sha fs →
      Repo.RepoInv sha (Repo.add_image sha fs scheme src hash).2 ∧
      (∀ contents, src = some contents → scheme = "file" →
        lookupKey fs (Repo.qcow2Name hash) = none → sha contents ≠ hash →
        (Repo.add_image sha fs scheme src hash).1 =
          Except.error "Given hash value does not match image data hash" ∧
        lookupKey (Repo.add_image sha fs scheme src hash).2
          (Repo.qcow2Name hash) = none) := by
  intro sha fs scheme src hash hinv
  by_cases hs : scheme = "file"
  case neg =>
    refine ⟨by simpa [Repo.add_image, hs] using hinv, ?_⟩
    intro contents _ hsch _ _
    exact absurd hsch hs
  case pos =>
    subst hs
    by_cases hex : (lookupKey fs (Repo.qcow2Name hash)).isSome
    · refine ⟨by simpa [Repo.add_image, hex] using hinv, ?_⟩
      intro contents _ _ hnone _
      rw [hnone] at hex
      simp at hex
    · cases src with
      | none =>
          refine ⟨by simpa [Repo.add_image, hex] using hinv, ?_⟩
          intro contents hc _ _ _
          cases hc
      | some contents =>
          by_cases hmatch : sha contents = hash
          · have hres2 : (Repo.add_image sha fs "file" (some contents) hash).2 =
                putKey fs (Repo.qcow2Name hash) contents := by
              simp [Repo.add_image, hex, hmatch]
            refine ⟨?_, ?_⟩
            · intro d c hlook
              rw [hres2] at hlook
              by_cases hd : Repo.qcow2Name d = Repo.qcow2Name hash
              · have hd2 : d = hash := qcow2Name_inj hd
                subst hd2
                rw [hd, lookupKey_putKey_self] at hlook
                cases hlook
                exact hmatch
              · rw [lookupKey_putKey_ne fs _ _ _ hd] at hlook
                exact hinv d c hlook
            · intro c2 hc2 _ _ hne
              cases hc2
              exact absurd hmatch hne
          · have hres : Repo.add_image sha fs "file" (some contents) hash =
                (Except.error "Given hash value does not match image data hash",
                 removeKey (putKey fs (Repo.qcow2Name hash) contents)
                   (Repo.qcow2Name hash)) := by
              simp [Repo.add_image, hex, hmatch]
            refine ⟨?_, ?_⟩
            · intro d c hlook
              rw [hres] at hlook
              by_cases hd : Repo.qcow2Name d = Repo.qcow2Name hash
              · rw [hd, lookupKey_removeKey_self] at hlook
                cases hlook
              · rw [lookupKey_removeKey_ne _ _ _ hd,
                   lookupKey_putKey_ne fs _ _ _ hd] at hlook
                exact hinv d c hlook
            · intro c2 hc2 _ _ _
              cases hc2
              rw [hres]
              exact ⟨rfl, lookupKey_removeKey_self _ _⟩

/-- Witness for C3: a fresh mismatching import errors and leaves no file
under the declared digest. -/
theorem c3_repo_digest_invariant_witness :
    (Repo.add_image (fun _ => "aa") [] "file" (some [1]) "zz").1 =
      Except.error "Given hash value does not match image data hash" ∧
    lookupKey (Repo.add_image (fun _ => "aa") [] "file" (some [1]) "zz").2
      (Repo.qcow2Name "zz") = none :=
  (c3_repo_digest_invariant (fun _ => "aa") [] "file" (some [1]) "zz"
    (by intro d c hc; cases hc)).2 [1] rfl rfl rfl (by decide)

/-- C4 counterexample: the claim says an empty interface list also yields an
empty byte sequence, but `build_net_config (Some [])` serializes a document
(version marker and empty ethernets map) — only the absent list (`None`)
short-circuits to empty bytes. -/
theorem c4_net_config_counterexample :
    NetworkConfig.build_net_config (some []) ≠ "" := by decide

/-- C4 (amended): an absent interface list yields an empty byte sequence,
while an empty-but-present list yields a non-empty document; for a present
list, interface `i` produces the entry keyed `"id<i>"` matched by MAC
address, with `dhcp6: true` for SLAAC mode, and for static-v4 mode the
address, `gateway4`, and a nameserver block exactly when the nameserver
list is non-empty. -/
theorem c4_net_config_synthesis :
    NetworkConfig.build_net_config none = "" ∧
    NetworkConfig.build_net_config (some []) ≠ "" ∧
    (∀ (nics : List NetworkConfig.Nic) (i : Nat), i < nics.length →
      (NetworkConfig.ethernetEntries nics).getD i dfltEntry =
        ("id" ++ toString i,
         NetworkConfig.Ethernet.tryFrom (nics.getD i dfltNic))) ∧
    (∀ nic : NetworkConfig.Nic,
      (NetworkConfig.Ethernet.tryFrom nic).matchBlock.macaddress =
        some nic.macaddress) ∧
    (∀ nic : NetworkConfig.Nic,
      nic.address = NetworkConfig.AddressKind.IPv6SLAAC →
      (NetworkConfig.Ethernet.tryFrom nic).dhcp6 = some true) ∧
    (∀ (nic : NetworkConfig.Nic) (addr gw : String) (ns : List String),
      nic.address = NetworkConfig.AddressKind.IPv4Static addr gw ns →
      (NetworkConfig.Ethernet.tryFrom nic).addresses = some [addr] ∧
      (NetworkConfig.Ethernet.tryFrom nic).gateway4 = some gw ∧
      (NetworkConfig.Ethernet.tryFrom nic).nameservers =
        (if ns ≠ [] then some { search := none, addresses := ns } else none)) := by
  refine ⟨rfl, by decide, ?_, ?_, ?_, ?_⟩
  · intro nics i hi
    simpa using ethersFrom_getD nics 0 i hi
  · intro nic
    cases haddr : nic.address <;>
      simp [NetworkConfig.Ethernet.tryFrom, NetworkConfig.Ethernet.new_with_mac, haddr]
  · intro nic h
    simp [NetworkConfig.Ethernet.tryFrom, h, NetworkConfig.Ethernet.new_with_mac]
  · intro nic addr gw ns h
    refine ⟨?_, ?_, ?_⟩ <;>
      simp [NetworkConfig.Ethernet.tryFrom, h, NetworkConfig.Ethernet.new_with_mac]

/-- Witness for C4's quantified parts at a one-interface list and at both
address modes. -/
theorem c4_net_config_synthesis_witness :
    (NetworkConfig.ethernetEntries [dfltNic]).getD 0 dfltEntry =
      ("id" ++ toString 0, NetworkConfig.Ethernet.tryFrom ([dfltNic].getD 0 dfltNic)) ∧
    (NetworkConfig.Ethernet.tryFrom dfltNic).dhcp6 = some true ∧
    (NetworkConfig.Ethernet.tryFrom
        { kind := "Macvtap", parent := "eth0",
          address := NetworkConfig.AddressKind.IPv4Static "192.168.3.160/24"
            "192.168.3.1" ["8.8.8.8"],
          macaddress := "00:16:3e:23:59:0f" }).nameservers =
      (if (["8.8.8.8"] : List String) ≠ [] then
        some { search := none, addresses := ["8.8.8.8"] } else none) :=
  ⟨c4_net_config_synthesis.2.2.1 [dfltNic] 0 (by decide),
   c4_net_config_synthesis.2.2.2.2.1 dfltNic rfl,
   (c4_net_config_synthesis.2.2.2.2.2
     { kind := "Macvtap", parent := "eth0",
       address := NetworkConfig.AddressKind.IPv4Static "192.168.3.160/24"
         "192.168.3.1" ["8.8.8.8"],
       macaddress := "00:16:3e:23:59:0f" }
     "192.168.3.160/24" "192.168.3.1" ["8.8.8.8"] rfl).2.2⟩

/-- The unknown-kind interface used to witness C10. -/
def fooNic : NetworkConfig.Nic :=
  { kind := "Foo", parent := "eth9",
    address := NetworkConfig.AddressKind.IPv6SLAAC, macaddress := "" }

/-- C10: during create, an interface whose kind is neither "Bridge" nor
"Macvtap" contributes no device fragment to the domain descriptor builder
and raises no error (the NIC loop is total and its fragment for such an
interface is `none`), yet it is still assigned the freshly generated MAC
and still yields its `"id<i>"` entry, matched by that MAC, in the network
configuration document. -/
theorem c10_unknown_nic_kind :
    ∀ (nics : List NetworkConfig.Nic) (macs : List String) (i : Nat),
      macs.length = nics.length → i < nics.length →
      (nics.getD i dfltNic).kind ≠ "Bridge" →
      (nics.getD i dfltNic).kind ≠ "Macvtap" →
      HostManager.nicFragment
        (HostManager.setMac (nics.getD i dfltNic) (macs.getD i "")) = none ∧
      ((HostManager.nicLoop nics macs).1.getD i dfltNic).macaddress =
        macs.getD i "" ∧
      (HostManager.nicLoop nics macs).2.1 =
        List.filterMap
          (fun p => HostManager.nicFragment (HostManager.setMac p.1 p.2))
          (nics.zip macs) ∧
      (NetworkConfig.ethernetEntries (HostManager.nicLoop nics macs).1).getD i
          dfltEntry =
        ("id" ++ toString i,
         NetworkConfig.Ethernet.tryFrom
           (HostManager.setMac (nics.getD i dfltNic) (macs.getD i ""))) ∧
      (NetworkConfig.Ethernet.tryFrom
          (HostManager.setMac (nics.getD i dfltNic)
            (macs.getD i ""))).matchBlock.macaddress =
        some (macs.getD i "") := by
  intro nics macs i hlen hi hk1 hk2
  have hgetD := zipWith_setMac_getD nics macs i hlen hi
  refine ⟨?_, ?_, nicLoop_frags nics macs, ?_, ?_⟩
  · simp only [List.getD, List.get?_eq_getElem?] at hk1 hk2
    simp [HostManager.nicFragment, HostManager.setMac, hk1, hk2]
  · rw [nicLoop_fst, hgetD]
    simp [HostManager.setMac]
  · have hlen2 : i < (HostManager.nicLoop nics macs).1.length := by
      rw [nicLoop_fst, List.length_zipWith]
      omega
    have := ethersFrom_getD (HostManager.nicLoop nics macs).1 0 i hlen2
    rw [NetworkConfig.ethernetEntries, this, Nat.zero_add, nicLoop_fst, hgetD]
  · set nic := nics.getD i dfltNic with hnic
    cases haddr : nic.address <;>
      simp [NetworkConfig.Ethernet.tryFrom, NetworkConfig.Ethernet.new_with_mac,
        HostManager.setMac, haddr]

/-- Witness for C10 at a one-interface list of unknown kind "Foo". -/
theorem c10_unknown_nic_kind_witness :
    HostManager.nicFragment
      (HostManager.setMac ([fooNic].getD 0 dfltNic)
        (["00:16:3e:23:59:0f"].getD 0 "")) = none ∧
    ((HostManager.nicLoop [fooNic] ["00:16:3e:23:59:0f"]).1.getD 0 dfltNic).macaddress =
      ["00:16:3e:23:59:0f"].getD 0 "" ∧
    (HostManager.nicLoop [fooNic] ["00:16:3e:23:59:0f"]).2.1 =
      List.filterMap
        (fun p => HostManager.nicFragment (HostManager.setMac p.1 p.2))
        ([fooNic].zip ["00:16:3e:23:59:0f"]) ∧
    (NetworkConfig.ethernetEntries
        (HostManager.nicLoop [fooNic] ["00:16:3e:23:59:0f"]).1).getD 0 dfltEntry =
      ("id" ++ toString 0,
       NetworkConfig.Ethernet.tryFrom
         (HostManager.setMac ([fooNic].getD 0 dfltNic)
           (["00:16:3e:23:59:0f"].getD 0 ""))) ∧
    (NetworkConfig.Ethernet.tryFrom
        (HostManager.setMac ([fooNic].getD 0 dfltNic)
          (["00:16:3e:23:59:0f"].getD 0 ""))).matchBlock.macaddress =
      some (["00:16:3e:23:59:0f"].getD 0 "") :=
  c10_unknown_nic_kind [fooNic] ["00:16:3e:23:59:0f"] 0 rfl (by decide)
    (by decide) (by decide)

end BigironVirt
